import Mathlib

/-!
Shallow embedding of the yangkky/GPModel repository (gpkernel.py and
gpmodel/gpmodel.py) together with proofs about the behaviour that its
specification describes.  Scalars that the Python code stores as floats
are modelled as rationals where only field arithmetic and comparisons
occur, and as reals where logarithms, exponentials or pi appear.  Fallible
Python code (raised exceptions, reads of unbound names or missing
attributes) is modelled with Except values.
-/

namespace GPModel

open Matrix

/- ## HammingKernel (gpkernel.py) -/

/-- Number of positions at which two strings agree, as computed by
sum of the comprehension over zip(s1, s2) in calc_kernel. -/
def hammingMatches (s1 s2 : String) : Nat :=
  ((s1.toList.zip s2.toList).filter (fun p => p.1 == p.2)).length

/-- Embedding of HammingKernel.calc_kernel (gpkernel.py lines 24-34) for
string arguments.  saved_seqs holds the cached keys.  The source assigns
s1 only in the branch where seq1 is not cached (the cached branch assigns
s2 instead), so a cached seq1 leaves s1 unbound and the final line raises
NameError; and line 31 joins seq1 (sic, not seq2) into s2 when seq2 is
not cached. -/
def calc_kernel (saved_seqs : List String) (seq1 seq2 : String) (var_p : ℚ) :
    Except String ℚ :=
  let s1 : Option String := if seq1 ∈ saved_seqs then none else some seq1
  let s2 : String := if seq2 ∈ saved_seqs then seq2 else seq1
  match s1 with
  | none => Except.error "NameError: s1 referenced before assignment"
  | some t1 => Except.ok ((hammingMatches t1 s2 : ℚ) * var_p)

/- ## Kernel training caches (gpkernel.py) -/

/-- Python values usable as frame labels and dict keys: ints or strings.
Python equality across the two variants is always false. -/
inductive PKey where
  | pint : Int → PKey
  | pstr : String → PKey
  deriving DecidableEq

/-- Python dict assignment d[k] = v: replace the stored value when the key
is present, otherwise append the binding. -/
def dictInsert {V : Type} (d : List (PKey × V)) (k : PKey) (v : V) :
    List (PKey × V) :=
  match d with
  | [] => [(k, v)]
  | (k0, v0) :: rest =>
    if k0 = k then (k, v) :: rest else (k0, v0) :: dictInsert rest k v

/-- Loop of StructureKernel.train (gpkernel.py lines 161-169).  rows pairs
each frame label X_seqs.index[i] with its sequence; gc abstracts
get_contacts.  The source tests the positional integer i with
i in self.contacts.keys(); when that test succeeds, the Python 2 statement
printing the diagnostic concatenates a string with an int, a TypeError. -/
def structureTrainGo {S V : Type} (gc : S → V) :
    Int → List (PKey × S) → List (PKey × V) → Except String (List (PKey × V))
  | _, [], contacts => Except.ok contacts
  | i, (label, seq) :: rest, contacts =>
    if (contacts.map Prod.fst).contains (PKey.pint i) then
      Except.error "TypeError: cannot concatenate str and int objects"
    else
      structureTrainGo gc (i + 1) rest (dictInsert contacts label (gc seq))

/-- Embedding of StructureKernel.train: the loop starts at i = 0 over the
rows of X_seqs, updating the contacts cache. -/
def structureTrain {S V : Type} (gc : S → V) (contacts : List (PKey × V))
    (X_seqs : List (PKey × S)) : Except String (List (PKey × V)) :=
  structureTrainGo gc 0 X_seqs contacts

/-- Embedding of HammingKernel.train (gpkernel.py lines 56-64).  The loop
body immediately reads self.contacts, an attribute HammingKernel never
defines, so any nonempty input raises AttributeError; an empty input skips
the loop and leaves the cache unchanged. -/
def hammingTrain (saved_seqs : List (PKey × String))
    (X_seqs : List (PKey × String)) : Except String (List (PKey × String)) :=
  match X_seqs with
  | [] => Except.ok saved_seqs
  | _ :: _ =>
    Except.error "AttributeError: HammingKernel instance has no attribute contacts"

/- ## GPRegressor.fit variances check (gpmodel.py lines 146-151) -/

/-- Embedding of the variances handling in GPRegressor.fit: the source
guard is literally written
if not len(variances) != len(Y): raise ValueError(...)
and on the non-raising path the model stores variances / std ** 2. -/
def fitVariancesStep (variances : Option (List ℚ)) (Y : List ℚ) (std : ℚ) :
    Except String (Option (List ℚ)) :=
  match variances with
  | none => Except.ok none
  | some v =>
    if ¬ (v.length ≠ Y.length) then
      Except.error "len(variances must match len(Y))"
    else
      Except.ok (some (v.map (fun x => x / std ^ 2)))

/- ## Hyperparameters handed to the kernel (gpmodel.py) -/

/-- Hyperparameters GPRegressor.predict hands to the kernel
(gpmodel.py line 221): h = self.hypers[1::], unconditionally. -/
def predictKernelHypers (hypers : List ℚ) : List ℚ := hypers.drop 1

/-- Hyperparameters GPRegressor._make_Ks hands to the kernel
(gpmodel.py lines 172-180): all of hypers when per-point variances were
supplied, hypers[1::] otherwise (slot 0 is then the global noise
variance).  These are, by construction of fit, the kernel own
hyperparameters of the fitted model. -/
def fitKernelHypers (variancesSupplied : Bool) (hypers : List ℚ) : List ℚ :=
  if variancesSupplied then hypers else hypers.drop 1

/- ## Objective selection (gpmodel.py lines 46-65 and 109-119) -/

/-- The two objective functions a model can bind. -/
inductive ObjectiveTag where
  | log_ML : ObjectiveTag
  | LOO_log_p : ObjectiveTag
  deriving DecidableEq

/-- Embedding of GPRegressor._set_objective (gpmodel.py lines 109-119). -/
def setObjective (objective : Option String) : Except String ObjectiveTag :=
  match objective with
  | none => Except.ok ObjectiveTag.log_ML
  | some s =>
    if s = "log_ML" then Except.ok ObjectiveTag.log_ML
    else if s = "LOO_log_p" then Except.ok ObjectiveTag.LOO_log_p
    else Except.error (s ++ " is not a valid objective")

/-- Embedding of the objective resolution in BaseGPModel.load
(gpmodel.py lines 59-62): the loaded name is compared with LOO_log_p and
every other name, known or not, is bound to _log_ML.  The Except result
type leaves room for a failure outcome, but no branch produces one. -/
def loadObjectiveE (s : String) : Except String ObjectiveTag :=
  if s = "LOO_log_p" then Except.ok ObjectiveTag.LOO_log_p
  else Except.ok ObjectiveTag.log_ML

/- ## GPClassifier attribute state (gpmodel.py lines 20-26, 353-422) -/

/-- Attributes set on a GPClassifier by BaseGPModel.__init__ and
GPClassifier.__init__ (gpmodel.py lines 24-26 and 353-357): kernel,
guesses, any keyword arguments stored by _set_params, and objective. -/
def classifierInitAttrs (kwargs : List String) : List String :=
  ["kernel", "guesses"] ++ kwargs ++ ["objective"]

/-- Attributes set during a successful GPClassifier.fit (gpmodel.py
lines 359-389), including those set by the objective evaluations that
minimize triggers: _log_ML stores ML, _find_F stores _K, and _logq stores
_W, _W_root, _L, _p and _grad (lines 445-458, 537-575, 577-607). -/
def classifierFitSets : List String :=
  ["X", "Y", "_ell", "_n_hypers", "_K", "ML", "_W", "_W_root", "_L", "_p",
   "_grad", "hypers"]

/-- Attribute state of a GPClassifier after construction and a successful
fit. -/
def classifierAttrsAfterFit (kwargs : List String) : List String :=
  classifierInitAttrs kwargs ++ classifierFitSets

/-- Instance attributes GPClassifier.predict reads, in source order up to
and including self.variances (gpmodel.py lines 391-412). -/
def predictReadOrder : List String :=
  ["hypers", "kernel", "X", "_grad", "_W_root", "_L", "_p", "variances"]

/-- First attribute of reads that is absent from attrs: the attribute
whose access raises AttributeError, if any. -/
def firstMissingAttr (attrs : List String) : List String → Option String
  | [] => none
  | r :: rest => if r ∈ attrs then firstMissingAttr attrs rest else some r

/- ## GPClassifier._logistic_likelihood (gpmodel.py lines 460-481) -/

/-- Embedding of the ndarray-branch label check: the source computes
((Y == 1).astype(int) + (Y == -1).astype(int)).all(), which is true
exactly when every entry is 1 or -1. -/
def validLabels (Y : List ℚ) : Bool :=
  Y.all (fun y => y == 1 || y == -1)

/-- Embedding of GPClassifier._logistic_likelihood for a label vector:
raises when some label is neither -1 nor 1, otherwise returns the
elementwise value 1 / (1 + exp(-Y * F)). -/
noncomputable def logisticLikelihoodArr (Y : List ℚ) (F : List ℝ) :
    Except String (List ℝ) :=
  if validLabels Y then
    Except.ok ((Y.zip F).map (fun p => 1 / (1 + Real.exp (-((p.1 : ℝ) * p.2)))))
  else
    Except.error "All values in Y must be -1 or 1"

/- ## GPMultiClassifier._softmax (gpmodel.py lines 724-734) -/

/-- Row transform of GPMultiClassifier._softmax: P = np.exp(f) followed by
division of each row by its sum acts independently on each row. -/
noncomputable def softmaxRow (row : List ℝ) : List ℝ :=
  (row.map Real.exp).map (fun p => p / (row.map Real.exp).sum)

/-- Embedding of GPMultiClassifier._softmax on an n_samples x n_classes
matrix stored as a list of rows. -/
noncomputable def softmax (f : List (List ℝ)) : List (List ℝ) :=
  f.map softmaxRow

/- ## GPRegressor._log_ML (gpmodel.py lines 172-180 and 237-257) -/

/-- The stabilized Cholesky routines of the external cholesky module:
modified_cholesky returns a factor and a permutation (the scalar
diagnostic is unused by _log_ML), and modified_cholesky_solve solves a
system given both. -/
structure CholSolver (n : ℕ) where
  factorize : Matrix (Fin n) (Fin n) ℝ → Matrix (Fin n) (Fin n) ℝ × Equiv.Perm (Fin n)
  solve : Matrix (Fin n) (Fin n) ℝ → Equiv.Perm (Fin n) → (Fin n → ℝ) → (Fin n → ℝ)

/-- Embedding of GPRegressor._make_Ks: with per-point variances the kernel
covariance is taken at all hypers and the noise is their diagonal; without
them the kernel covariance is taken at hypers[1::] and the noise is the
identity scaled by hypers[0]. -/
def make_Ks {n : ℕ} (cov : List ℝ → Matrix (Fin n) (Fin n) ℝ)
    (variances : Option (Fin n → ℝ)) (hypers : List ℝ) :
    Matrix (Fin n) (Fin n) ℝ × Matrix (Fin n) (Fin n) ℝ :=
  match variances with
  | some v => (cov hypers, cov hypers + Matrix.diagonal v)
  | none =>
    (cov (hypers.drop 1),
     cov (hypers.drop 1) + hypers.headD 0 • (1 : Matrix (Fin n) (Fin n) ℝ))

/-- Definition following the words of the specification: Ky is the
noise-free covariance K plus either the diagonal of the supplied variances
or the identity times the single noise hyperparameter. -/
def KySpec {n : ℕ} (cov : List ℝ → Matrix (Fin n) (Fin n) ℝ)
    (variances : Option (Fin n → ℝ)) (hypers : List ℝ) :
    Matrix (Fin n) (Fin n) ℝ :=
  match variances with
  | some v => cov hypers + Matrix.diagonal v
  | none => cov (hypers.drop 1) + hypers.headD 0 • (1 : Matrix (Fin n) (Fin n) ℝ)

/-- Embedding of GPRegressor._log_ML (gpmodel.py lines 237-257): factorize
Ky, solve for alpha, and return
0.5 * dot(Y, alpha) + sum(log(diag(L))) + len(K)/2 * log(2 pi)
on the normalized targets. -/
noncomputable def log_ML {n : ℕ} (S : CholSolver n)
    (cov : List ℝ → Matrix (Fin n) (Fin n) ℝ) (variances : Option (Fin n → ℝ))
    (hypers : List ℝ) (normedY : Fin n → ℝ) : ℝ :=
  let Ky := (make_Ks cov variances hypers).2
  let Lp := S.factorize Ky
  let alpha := S.solve Lp.1 Lp.2 normedY
  0.5 * (normedY ⬝ᵥ alpha) + (∑ i, Real.log (Lp.1 i i))
    + (n : ℝ) / 2 * Real.log (2 * Real.pi)

/- ## GPClassifier._find_F (gpmodel.py lines 537-575) -/

/-- np.sum((f_hat - f_new) ** 2) over vectors modelled as lists. -/
def sqDiff (xs ys : List ℝ) : ℝ :=
  ((xs.zip ys).map (fun p => (p.1 - p.2) ^ 2)).sum

/-- The relative squared update sq_error / abs(np.sum(f_new)) tested by
GPClassifier._find_F at line 568. -/
noncomputable def relUpdate (fHat fNew : List ℝ) : ℝ :=
  sqDiff fHat fNew / |fNew.sum|

/-- Loop of GPClassifier._find_F (gpmodel.py lines 552-575).  step
abstracts one Newton update of the latent vector (lines 554-566), a
deterministic function of the current iterate once the kernel matrix and
the training data are fixed.  fuel counts the remaining iterations of
for i in range(evals); nBelow is the n_below counter.  Exhausting the
budget raises RuntimeError. -/
noncomputable def findFGo (step : List ℝ → List ℝ) (threshold : ℝ) :
    ℕ → List ℝ → ℕ → Except String (List ℝ)
  | 0, _, _ => Except.error "Maximum evaluations reached without convergence."
  | fuel + 1, fHat, nBelow =>
    let fNew := step fHat
    let nb := if relUpdate fHat fNew < threshold then nBelow + 1 else 0
    if nb > 9 then Except.ok fNew else findFGo step threshold fuel fNew nb

/-- Embedding of GPClassifier._find_F with the initial iterate explicit
(guess=None gives the zero vector; the convergence control is insensitive
to the start point).  The source defaults are threshold = 0.0001 and
evals = 1000. -/
noncomputable def find_F (step : List ℝ → List ℝ) (threshold : ℝ) (evals : ℕ)
    (f0 : List ℝ) : Except String (List ℝ) :=
  findFGo step threshold evals f0 0

/-- The Newton iterates: fIter step f0 n is the latent vector after n
updates from the initial iterate. -/
def fIter (step : List ℝ → List ℝ) (f0 : List ℝ) : ℕ → List ℝ
  | 0 => f0
  | n + 1 => step (fIter step f0 n)

/-- Value of the n_below counter of _find_F when iteration i starts: the
number of consecutive below-threshold updates directly before i. -/
noncomputable def streak (step : List ℝ → List ℝ) (threshold : ℝ)
    (f0 : List ℝ) : ℕ → ℕ
  | 0 => 0
  | i + 1 =>
    if relUpdate (fIter step f0 i) (fIter step f0 (i + 1)) < threshold then
      streak step threshold f0 i + 1
    else 0

/-- The relative squared update fell below the tolerance at each of the
ten consecutive iterations j - 9 through j. -/
def tenConsecutive (step : List ℝ → List ℝ) (threshold : ℝ) (f0 : List ℝ)
    (j : ℕ) : Prop :=
  9 ≤ j ∧ ∀ k, j - 9 ≤ k → k ≤ j →
    relUpdate (fIter step f0 k) (fIter step f0 (k + 1)) < threshold

/- ## Concrete witness material -/

/-- A concrete stabilized-Cholesky collaborator on 1 x 1 matrices whose
solve step returns exactly the inverse applied to the right-hand side. -/
noncomputable def idSolver : CholSolver 1 :=
  ⟨fun M => (M, Equiv.refl (Fin 1)), fun L _ y => L⁻¹ *ᵥ y⟩

/-- Concrete kernel covariance for the witness: the 1 x 1 identity. -/
def wCov : List ℝ → Matrix (Fin 1) (Fin 1) ℝ := fun _ => 1

/-- Concrete supplied variances for the witness. -/
def wVar : Option (Fin 1 → ℝ) := some (fun _ => 1)

/-- Concrete normalized target vector for the witness. -/
def wY : Fin 1 → ℝ := fun _ => 1

/- ## Theorems -/

/-- C1: the claim says the identity kernel gives covariance 3 for the pair
AAAA, AAAB at variance 1 and covariance 0 for two length-4 sequences that
differ everywhere.  Evaluating the embedded calc_kernel on a fresh kernel
(empty cache) yields 4 in both cases, because line 31 of gpkernel.py joins
seq1, not seq2, into s2, so the function compares seq1 against itself; and
when seq1 is already cached the local s1 is never assigned, a NameError.
This contradicts the claim and the docstring of calc_kernel, which
promises the number of shared amino acids between the two sequences. -/
theorem hammingKernel_calc_kernel_eval :
    calc_kernel [] "AAAA" "AAAB" 1 = Except.ok 4
    ∧ calc_kernel [] "AAAA" "BBBB" 1 = Except.ok 4
    ∧ calc_kernel ["AAAA"] "AAAA" "AAAB" 1
        = Except.error "NameError: s1 referenced before assignment" := by
  refine ⟨?_, ?_, rfl⟩ <;> · show Except.ok _ = _; norm_num [calc_kernel, hammingMatches]

/-- C2: the claim says fit raises the length-mismatch error exactly when a
supplied variances vector has a length different from Y.  The guard in the
source is inverted (if not len(variances) != len(Y): raise), so fit raises
exactly when the lengths agree and silently stores a mismatched vector:
here variances of length 2 with Y of length 2 raises, while variances of
length 1 with Y of length 2 is accepted and stored. -/
theorem fit_variances_guard_eval :
    fitVariancesStep (some [1, 1]) [0, 1] 1
        = Except.error "len(variances must match len(Y))"
    ∧ fitVariancesStep (some [1]) [0, 1] 1 = Except.ok (some [1]) := by
  constructor <;> · show _ = _; norm_num [fitVariancesStep]

/-- C3: the claim says predict hands the kernel exactly its own
hyperparameters regardless of whether per-point variances were supplied to
fit.  predict always evaluates self.hypers[1::], while with supplied
variances the kernel owns every slot of hypers (as _make_Ks shows), so for
a fitted hyperparameter vector [2, 3] the kernel receives [3] instead of
[2, 3]. -/
theorem predict_hypers_eval :
    predictKernelHypers [2, 3] = [3]
    ∧ fitKernelHypers true [2, 3] = [2, 3]
    ∧ predictKernelHypers [2, 3] ≠ fitKernelHypers true [2, 3] := by
  refine ⟨rfl, rfl, ?_⟩; decide

/-- C4: the claim says re-registering an already-cached key with a kernel
train method is a no-op with a diagnostic, never a silent overwrite and
never an error.  StructureKernel.train compares the positional integer i
with the cached keys instead of the label X_seqs.index[i], so training
again on a frame whose label a is already cached silently overwrites the
cached value (here 0 becomes 1); and HammingKernel.train reads the
nonexistent attribute self.contacts, an AttributeError on any nonempty
input. -/
theorem kernel_train_rewrite_eval :
    structureTrain (fun _ : Unit => (1 : ℕ)) [(PKey.pstr "a", 0)]
        [(PKey.pstr "a", ())]
      = Except.ok [(PKey.pstr "a", 1)]
    ∧ hammingTrain [] [(PKey.pstr "s", "AAAA")]
      = Except.error "AttributeError: HammingKernel instance has no attribute contacts" :=
  ⟨rfl, rfl⟩

/-- C8 counterexample: the claim says a model given an unknown objective
name when loading a persisted model fails with an explicit configuration
error; the loader instead proceeds, silently binding the unknown name to
the log marginal likelihood objective. -/
theorem load_objective_counterexample :
    (loadObjectiveE "not_an_objective").isOk = true
    ∧ loadObjectiveE "not_an_objective" = Except.ok ObjectiveTag.log_ML :=
  ⟨rfl, rfl⟩

/-- C8 amended: at construction an unknown objective name fails with an
explicit configuration error, but when loading a persisted model an
unknown objective name does not fail and is silently resolved to the log
marginal likelihood objective. -/
theorem objective_name_handling :
    (∀ s : String, s ≠ "log_ML" → s ≠ "LOO_log_p" →
        setObjective (some s) = Except.error (s ++ " is not a valid objective"))
    ∧ (∀ s : String, s ≠ "LOO_log_p" →
        loadObjectiveE s = Except.ok ObjectiveTag.log_ML) := by
  constructor
  · intro s h1 h2
    simp [setObjective, h1, h2]
  · intro s h
    simp [loadObjectiveE, h]

/-- Witness for the amended C8 theorem at the concrete unknown name
bogus. -/
theorem objective_name_handling_witness :
    ("bogus" ≠ "log_ML" ∧ "bogus" ≠ "LOO_log_p"
      ∧ setObjective (some "bogus")
          = Except.error ("bogus" ++ " is not a valid objective"))
    ∧ loadObjectiveE "bogus" = Except.ok ObjectiveTag.log_ML :=
  ⟨⟨by decide, by decide,
      objective_name_handling.1 "bogus" (by decide) (by decide)⟩,
    objective_name_handling.2 "bogus" (by decide)⟩

/-- C6: the logistic likelihood of GPClassifier validates the label domain
eagerly on a label vector: it returns a value exactly when every label is
-1 or 1, and raises the explicit invalid-label error exactly when some
label lies outside that set. -/
theorem logistic_likelihood_label_check :
    ∀ (Y : List ℚ) (F : List ℝ),
      ((∃ v, logisticLikelihoodArr Y F = Except.ok v) ↔ ∀ y ∈ Y, y = 1 ∨ y = -1)
      ∧ (logisticLikelihoodArr Y F = Except.error "All values in Y must be -1 or 1"
          ↔ ∃ y ∈ Y, ¬ (y = 1 ∨ y = -1)) := by
  intro Y F
  have hvalid : validLabels Y = true ↔ ∀ y ∈ Y, y = 1 ∨ y = -1 := by
    simp [validLabels]
  by_cases h : validLabels Y
  · constructor
    · constructor
      · intro _
        exact hvalid.mp h
      · intro _
        exact ⟨(Y.zip F).map (fun p => 1 / (1 + Real.exp (-((p.1 : ℝ) * p.2)))),
          by simp [logisticLikelihoodArr, h]⟩
    · constructor
      · intro he
        exact absurd he (by simp [logisticLikelihoodArr, h])
      · rintro ⟨y, hy, hne⟩
        exact absurd (hvalid.mp h y hy) hne
  · have hbad : ∃ y ∈ Y, ¬ (y = 1 ∨ y = -1) := by
      by_contra hc
      push_neg at hc
      exact h (hvalid.mpr (fun y hy => hc y hy))
    constructor
    · constructor
      · rintro ⟨v, hv⟩
        exact absurd hv (by simp [logisticLikelihoodArr, h])
      · intro hall
        exact absurd (hvalid.mpr hall) h
    · constructor
      · intro _
        exact hbad
      · intro _
        simp [logisticLikelihoodArr, h]

/-- Sum of a list after elementwise division by a constant. -/
theorem sum_map_div (l : List ℝ) (c : ℝ) :
    (l.map (fun x => x / c)).sum = l.sum / c := by
  induction l with
  | nil => simp
  | cons a t ih => simp [ih, add_div]

/-- C9: each row of the multi-class softmax sums to 1, for every latent
matrix whose rows are nonempty (n_classes at least 1). -/
theorem softmax_rows_sum_one :
    ∀ f : List (List ℝ), (∀ row ∈ f, row ≠ []) →
      ∀ r ∈ softmax f, r.sum = 1 := by
  intro f hf r hr
  rcases List.mem_map.mp hr with ⟨row, hrow, rfl⟩
  have hne : row.map Real.exp ≠ [] := by
    intro hcon
    exact hf row hrow (List.map_eq_nil_iff.mp hcon)
  have hpos : 0 < (row.map Real.exp).sum := by
    apply List.sum_pos
    · intro x hx
      rcases List.mem_map.mp hx with ⟨y, _, rfl⟩
      exact Real.exp_pos y
    · exact hne
  show ((row.map Real.exp).map (fun p => p / (row.map Real.exp).sum)).sum = 1
  rw [sum_map_div, div_self (ne_of_gt hpos)]

/-- Witness for C9 at the concrete one-sample, one-class latent matrix
with entry 0. -/
theorem softmax_rows_sum_one_witness :
    (∀ row ∈ [[(0 : ℝ)]], row ≠ []) ∧ ∀ r ∈ softmax [[(0 : ℝ)]], r.sum = 1 :=
  ⟨by simp, softmax_rows_sum_one [[(0 : ℝ)]] (by simp)⟩

/-- C10: for a GPClassifier constructed without a variances keyword
argument, the first attribute predict reads that no constructor, fit or
objective evaluation ever set is variances, so predict raises
AttributeError on self.variances even after a successful fit. -/
theorem classifier_predict_missing_variances :
    ∀ kwargs : List String, "variances" ∉ kwargs →
      firstMissingAttr (classifierAttrsAfterFit kwargs) predictReadOrder
        = some "variances" := by
  intro kwargs h
  have hmem : ∀ a : String, a ∈ classifierInitAttrs [] ∨ a ∈ classifierFitSets →
      a ∈ classifierAttrsAfterFit kwargs := by
    intro a ha
    simp only [classifierAttrsAfterFit, classifierInitAttrs, List.mem_append,
      List.mem_cons] at ha ⊢
    rcases ha with ha | ha
    · simp only [List.mem_append, List.mem_cons, List.not_mem_nil, or_false] at ha
      tauto
    · tauto
  have hv : "variances" ∉ classifierAttrsAfterFit kwargs := by
    simp only [classifierAttrsAfterFit, classifierInitAttrs, classifierFitSets,
      List.mem_append, List.mem_cons, List.not_mem_nil] at *
    rintro (((h1 | h1) | h1) | h1) <;> simp_all
  have h1 := hmem "hypers" (by right; simp [classifierFitSets])
  have h2 := hmem "kernel" (by left; simp [classifierInitAttrs])
  have h3 := hmem "X" (by right; simp [classifierFitSets])
  have h4 := hmem "_grad" (by right; simp [classifierFitSets])
  have h5 := hmem "_W_root" (by right; simp [classifierFitSets])
  have h6 := hmem "_L" (by right; simp [classifierFitSets])
  have h7 := hmem "_p" (by right; simp [classifierFitSets])
  simp [predictReadOrder, firstMissingAttr, h1, h2, h3, h4, h5, h6, h7, hv]

/-- Witness for C10 with no keyword arguments at construction. -/
theorem classifier_predict_missing_variances_witness :
    ("variances" ∉ ([] : List String))
    ∧ firstMissingAttr (classifierAttrsAfterFit []) predictReadOrder
        = some "variances" :=
  ⟨by simp, classifier_predict_missing_variances [] (by simp)⟩

/-- C7: the negative log marginal likelihood objective of GPRegressor
equals one half of the inner product of the normalized targets with the
inverse of Ky applied to them, plus the sum of the logs of the diagonal of
the stabilized Cholesky factor of Ky, plus n/2 times log(2 pi); here Ky is
the noise-free covariance plus the diagonal of the supplied variances, or
plus the identity times the single noise hyperparameter (KySpec), and the
hypothesis states that the external stabilized solver applied to the
factorization of Ky returns the solution of the corresponding linear
system. -/
theorem log_ML_formula {n : ℕ} (S : CholSolver n)
    (cov : List ℝ → Matrix (Fin n) (Fin n) ℝ) (variances : Option (Fin n → ℝ))
    (hypers : List ℝ) (normedY : Fin n → ℝ)
    (hsolve : S.solve (S.factorize (KySpec cov variances hypers)).1
        (S.factorize (KySpec cov variances hypers)).2 normedY
      = (KySpec cov variances hypers)⁻¹ *ᵥ normedY) :
    log_ML S cov variances hypers normedY
      = 1 / 2 * (normedY ⬝ᵥ ((KySpec cov variances hypers)⁻¹ *ᵥ normedY))
        + (∑ i, Real.log ((S.factorize (KySpec cov variances hypers)).1 i i))
        + (n : ℝ) / 2 * Real.log (2 * Real.pi) := by
  have hK : (make_Ks cov variances hypers).2 = KySpec cov variances hypers := by
    cases variances <;> rfl
  simp only [log_ML, hK, hsolve]
  norm_num

/-- Witness for C7: the solver that factors trivially and solves with the
matrix inverse satisfies the contract hypothesis definitionally on a
concrete 1 x 1 instance. -/
theorem log_ML_formula_witness :
    (idSolver.solve (idSolver.factorize (KySpec wCov wVar [])).1
        (idSolver.factorize (KySpec wCov wVar [])).2 wY
      = (KySpec wCov wVar [])⁻¹ *ᵥ wY)
    ∧ log_ML idSolver wCov wVar [] wY
      = 1 / 2 * (wY ⬝ᵥ ((KySpec wCov wVar [])⁻¹ *ᵥ wY))
        + (∑ i, Real.log ((idSolver.factorize (KySpec wCov wVar [])).1 i i))
        + ((1 : ℕ) : ℝ) / 2 * Real.log (2 * Real.pi) :=
  ⟨rfl, log_ML_formula idSolver wCov wVar [] wY rfl⟩

/-- Characterization of the n_below counter: it is at least t exactly when
the last t updates before iteration m were all below the threshold. -/
theorem streak_ge_iff (s : List ℝ → List ℝ) (thr : ℝ) (f0 : List ℝ) :
    ∀ m t : ℕ, t ≤ streak s thr f0 m ↔
      t ≤ m ∧ ∀ k, m - t ≤ k → k < m →
        relUpdate (fIter s f0 k) (fIter s f0 (k + 1)) < thr := by
  intro m
  induction m with
  | zero =>
    intro t
    constructor
    · intro h
      have h0 : streak s thr f0 0 = 0 := rfl
      rw [h0] at h
      exact ⟨h, fun k h1 h2 => absurd h2 (by omega)⟩
    · rintro ⟨h, _⟩
      have h0 : streak s thr f0 0 = 0 := rfl
      rw [h0]
      exact h
  | succ m ih =>
    intro t
    by_cases hb : relUpdate (fIter s f0 m) (fIter s f0 (m + 1)) < thr
    · have hs : streak s thr f0 (m + 1) = streak s thr f0 m + 1 := by
        show (if relUpdate (fIter s f0 m) (fIter s f0 (m + 1)) < thr then
          streak s thr f0 m + 1 else 0) = streak s thr f0 m + 1
        rw [if_pos hb]
      rw [hs]
      cases t with
      | zero =>
        constructor
        · intro _
          exact ⟨by omega, fun k h1 h2 => absurd h2 (by omega)⟩
        · intro _
          omega
      | succ t =>
        constructor
        · intro h
          have h' := (ih t).mp (by omega)
          refine ⟨by omega, ?_⟩
          intro k h1 h2
          rcases Nat.lt_succ_iff_lt_or_eq.mp h2 with hk | hk
          · exact h'.2 k (by omega) hk
          · subst hk
            exact hb
        · rintro ⟨h1, h2⟩
          have : t ≤ streak s thr f0 m :=
            (ih t).mpr ⟨by omega, fun k hk1 hk2 => h2 k (by omega) (by omega)⟩
          omega
    · have hs : streak s thr f0 (m + 1) = 0 := by
        show (if relUpdate (fIter s f0 m) (fIter s f0 (m + 1)) < thr then
          streak s thr f0 m + 1 else 0) = 0
        rw [if_neg hb]
      rw [hs]
      constructor
      · intro h
        have ht : t = 0 := by omega
        subst ht
        exact ⟨by omega, fun k h1 h2 => absurd h2 (by omega)⟩
      · rintro ⟨h1, h2⟩
        by_contra hc
        exact hb (h2 m (by omega) (by omega))

/-- The mode-finding loop either converges to some iterate or fails with
the explicit non-convergence message; there is no other outcome. -/
theorem findFGo_total (s : List ℝ → List ℝ) (thr : ℝ) :
    ∀ (fuel : ℕ) (fh : List ℝ) (nb : ℕ),
      (∃ f, findFGo s thr fuel fh nb = Except.ok f)
      ∨ findFGo s thr fuel fh nb
          = Except.error "Maximum evaluations reached without convergence." := by
  intro fuel
  induction fuel with
  | zero =>
    intro fh nb
    right
    rfl
  | succ fuel ih =>
    intro fh nb
    simp only [findFGo]
    by_cases hb : relUpdate fh (s fh) < thr
    · rw [if_pos hb]
      by_cases h9 : nb + 1 > 9
      · left
        exact ⟨s fh, by rw [if_pos h9]⟩
      · rw [if_neg h9]
        exact ih (s fh) (nb + 1)
    · rw [if_neg hb]
      have h9 : ¬ (0 > 9) := by omega
      rw [if_neg h9]
      exact ih (s fh) 0

/-- The loop state at iteration i (current iterate and n_below counter)
determines the outcome: the loop returns Except.ok f exactly when some
iteration j within the remaining budget is the first whose counter reaches
ten, and f is the iterate produced at that iteration. -/
theorem findFGo_ok_iff (s : List ℝ → List ℝ) (thr : ℝ) (f0 : List ℝ) :
    ∀ fuel i : ℕ, streak s thr f0 i ≤ 9 → ∀ f : List ℝ,
      (findFGo s thr fuel (fIter s f0 i) (streak s thr f0 i) = Except.ok f ↔
        ∃ j, i ≤ j ∧ j < i + fuel ∧ 10 ≤ streak s thr f0 (j + 1)
          ∧ (∀ r, i ≤ r → r < j → streak s thr f0 (r + 1) ≤ 9)
          ∧ f = fIter s f0 (j + 1)) := by
  intro fuel
  induction fuel with
  | zero =>
    intro i hstreak f
    constructor
    · intro h
      exact absurd h (by simp [findFGo])
    · rintro ⟨j, h1, h2, _⟩
      omega
  | succ fuel ih =>
    intro i hstreak f
    have hunfold : findFGo s thr (fuel + 1) (fIter s f0 i) (streak s thr f0 i)
        = if streak s thr f0 (i + 1) > 9 then Except.ok (fIter s f0 (i + 1))
          else findFGo s thr fuel (fIter s f0 (i + 1)) (streak s thr f0 (i + 1)) := rfl
    rw [hunfold]
    by_cases h10 : streak s thr f0 (i + 1) > 9
    · rw [if_pos h10]
      constructor
      · intro h
        have hf : fIter s f0 (i + 1) = f := by
          injection h
        exact ⟨i, le_refl i, by omega, by omega,
          fun r hr1 hr2 => absurd (lt_of_le_of_lt hr1 hr2) (lt_irrefl i), hf.symm⟩
      · rintro ⟨j, hj1, hj2, hj3, hj4, rfl⟩
        have hji : j = i := by
          by_contra hne
          have hlt : i < j := by omega
          have := hj4 i (le_refl i) hlt
          omega
        subst hji
        rfl
    · rw [if_neg h10]
      have h9 : streak s thr f0 (i + 1) ≤ 9 := by omega
      rw [ih (i + 1) h9 f]
      constructor
      · rintro ⟨j, hj1, hj2, hj3, hj4, hj5⟩
        refine ⟨j, by omega, by omega, hj3, ?_, hj5⟩
        intro r hr1 hr2
        by_cases hri : i + 1 ≤ r
        · exact hj4 r hri hr2
        · have : r = i := by omega
          subst this
          exact h9
      · rintro ⟨j, hj1, hj2, hj3, hj4, hj5⟩
        have hji : i + 1 ≤ j := by
          rcases Nat.eq_or_lt_of_le hj1 with h | h

          · exfalso
            rw [← h] at hj3
            omega
          · omega
        exact ⟨j, hji, by omega, hj3, fun r hr1 hr2 => hj4 r (by omega) hr2, hj5⟩

/-- Ten consecutive below-threshold iterations ending at j is the same as
the n_below counter reaching ten right after iteration j. -/
theorem tenConsecutive_iff_streak (s : List ℝ → List ℝ) (thr : ℝ)
    (f0 : List ℝ) (j : ℕ) :
    tenConsecutive s thr f0 j ↔ 10 ≤ streak s thr f0 (j + 1) := by
  rw [streak_ge_iff s thr f0 (j + 1) 10]
  constructor
  · rintro ⟨h9, hall⟩
    exact ⟨by omega, fun k h1 h2 => hall k (by omega) (by omega)⟩
  · rintro ⟨h10, hall⟩
    exact ⟨by omega, fun k h1 h2 => hall k (by omega) (by omega)⟩

/-- C5: with the fixed budget of 1000 iterations, _find_F returns a latent
vector exactly when the relative squared update falls below the tolerance
for ten consecutive iterations within the budget — the returned vector
being the iterate produced by the first such run of ten — and it raises
the explicit non-convergence error exactly when no such run of ten occurs
within the budget. -/
theorem findF_convergence (s : List ℝ → List ℝ) (thr : ℝ) (f0 : List ℝ) :
    (∀ f, find_F s thr 1000 f0 = Except.ok f ↔
        ∃ j, j < 1000 ∧ tenConsecutive s thr f0 j
          ∧ (∀ r, r < j → ¬ tenConsecutive s thr f0 r)
          ∧ f = fIter s f0 (j + 1))
    ∧ (find_F s thr 1000 f0
          = Except.error "Maximum evaluations reached without convergence." ↔
        ∀ j, j < 1000 → ¬ tenConsecutive s thr f0 j) := by
  have hstart : streak s thr f0 0 ≤ 9 := by
    have h0 : streak s thr f0 0 = 0 := rfl
    omega
  have hfind : find_F s thr 1000 f0
      = findFGo s thr 1000 (fIter s f0 0) (streak s thr f0 0) := rfl
  have hok : ∀ f, find_F s thr 1000 f0 = Except.ok f ↔
      ∃ j, j < 1000 ∧ tenConsecutive s thr f0 j
        ∧ (∀ r, r < j → ¬ tenConsecutive s thr f0 r)
        ∧ f = fIter s f0 (j + 1) := by
    intro f
    rw [hfind, findFGo_ok_iff s thr f0 1000 0 hstart f]
    constructor
    · rintro ⟨j, _, hj2, hj3, hj4, hj5⟩
      refine ⟨j, by omega, (tenConsecutive_iff_streak s thr f0 j).mpr hj3, ?_, hj5⟩
      intro r hr hc
      have hcs := (tenConsecutive_iff_streak s thr f0 r).mp hc
      have := hj4 r (by omega) hr
      omega
    · rintro ⟨j, hj1, hj2, hj3, hj4⟩
      refine ⟨j, by omega, by omega,
        (tenConsecutive_iff_streak s thr f0 j).mp hj2, ?_, hj4⟩
      intro r _ hr
      by_contra hc
      exact hj3 r hr ((tenConsecutive_iff_streak s thr f0 r).mpr (by omega))
  refine ⟨hok, ?_⟩
  constructor
  · intro herr j hj hc
    haveI : DecidablePred (fun r => tenConsecutive s thr f0 r) :=
      Classical.decPred _
    have hex : ∃ r, tenConsecutive s thr f0 r := ⟨j, hc⟩
    have hr0 : tenConsecutive s thr f0 (Nat.find hex) := Nat.find_spec hex
    have hr0le : Nat.find hex ≤ j := Nat.find_min' hex hc
    have hleast : ∀ r, r < Nat.find hex → ¬ tenConsecutive s thr f0 r :=
      fun r hr => Nat.find_min hex hr
    have hok2 : find_F s thr 1000 f0
        = Except.ok (fIter s f0 (Nat.find hex + 1)) :=
      (hok (fIter s f0 (Nat.find hex + 1))).mpr
        ⟨Nat.find hex, by omega, hr0, hleast, rfl⟩
    rw [herr] at hok2
    exact Except.noConfusion hok2
  · intro hnone
    rcases findFGo_total s thr 1000 f0 0 with ⟨f, hf⟩ | herr
    · exfalso
      have : find_F s thr 1000 f0 = Except.ok f := hf
      rcases (hok f).mp this with ⟨j, hj1, hj2, _⟩
      exact hnone j hj1 hj2
    · exact herr

end GPModel
